import Mathlib

/-!
# FocusFlow — verification of the session-tracker core

Shallow embedding of the aggregation, streak, goal-progress and store logic
of `src/app/app.py` (FocusFlow study tracker), together with theorems that
settle the specification claims about it.

Conventions of the embedding:
* calendar dates are integers (day numbers; consecutive days differ by 1);
* times of day are minutes since midnight (`ℕ`, `< 1440`);
* the numeric `Hours`, `Productivity` and target values are rationals;
* a CSV file is a list of lines, each line a list of cell strings.
-/

namespace FocusFlow

/-! ## Numeric helpers (numpy-style rounding and int casting) -/

/-- Truncation toward zero of a rational, as numpy's `astype(int)` does. -/
def ratTrunc (q : ℚ) : ℤ :=
  if q < 0 then -(Int.floor (-q)) else Int.floor q

/-- Round to the nearest integer, ties to even, as numpy rounding does. -/
def roundHalfEven (q : ℚ) : ℤ :=
  let f := Int.floor q
  let r := q - (f : ℚ)
  if r < 1 / 2 then f
  else if 1 / 2 < r then f + 1
  else if f % 2 = 0 then f else f + 1

/-- Round to one decimal place, as pandas `.round(1)` does. -/
def round1 (q : ℚ) : ℚ := (roundHalfEven (q * 10) : ℚ) / 10

lemma round1_intCast (n : ℤ) : round1 ((n : ℚ)) = (n : ℚ) := by
  have h1 : ((n : ℚ)) * 10 = ((10 * n : ℤ) : ℚ) := by push_cast; ring
  simp only [round1, roundHalfEven, h1, Int.floor_intCast, sub_self]
  rw [if_pos (by norm_num)]
  push_cast
  field_simp

/-! ## `compute_streak` (src/app/app.py lines 61–68)

```python
def compute_streak(dates_set, today_date):
    streak = 0
    cur = today_date
    while cur in dates_set:
        streak += 1
        cur = cur - timedelta(days=1)
    return streak
```
-/

lemma filter_le_card_decreases {S : Finset ℤ} {t : ℤ} (h : t ∈ S) :
    (S.filter (fun d => d ≤ t - 1)).card < (S.filter (fun d => d ≤ t)).card := by
  have hsub : S.filter (fun d => d ≤ t - 1) ⊆ S.filter (fun d => d ≤ t) := by
    intro d hd
    simp only [Finset.mem_filter] at hd ⊢
    exact ⟨hd.1, by omega⟩
  refine Finset.card_lt_card ((Finset.ssubset_iff_of_subset hsub).mpr ?_)
  refine ⟨t, Finset.mem_filter.mpr ⟨h, le_refl t⟩, ?_⟩
  simp only [Finset.mem_filter, not_and]
  intro _
  omega

/-- The streak loop: count consecutive days present in `S`, walking back from
`today` one day at a time; stop at the first absent day. -/
def compute_streak (S : Finset ℤ) (today : ℤ) : ℕ :=
  if h : today ∈ S then compute_streak S (today - 1) + 1 else 0
termination_by (S.filter (fun d => d ≤ today)).card
decreasing_by exact filter_le_card_decreases h

lemma compute_streak_of_mem {S : Finset ℤ} {t : ℤ} (h : t ∈ S) :
    compute_streak S t = compute_streak S (t - 1) + 1 := by
  rw [compute_streak]
  simp [h]

lemma compute_streak_of_not_mem {S : Finset ℤ} {t : ℤ} (h : t ∉ S) :
    compute_streak S t = 0 := by
  rw [compute_streak]
  simp [h]

lemma streak_spec_aux :
    ∀ (n : ℕ) (S : Finset ℤ) (t : ℤ), (S.filter (fun d => d ≤ t)).card ≤ n →
      (∀ k : ℕ, k < compute_streak S t → t - (k : ℤ) ∈ S) ∧
      (t - (compute_streak S t : ℤ)) ∉ S ∧
      compute_streak S t ≤ (S.filter (fun d => d ≤ t)).card := by
  intro n
  induction n with
  | zero =>
    intro S t hle
    have hnot : t ∉ S := by
      intro hmem
      have hm : t ∈ S.filter (fun d => d ≤ t) :=
        Finset.mem_filter.mpr ⟨hmem, le_refl t⟩
      have hpos := Finset.card_pos.mpr ⟨t, hm⟩
      omega
    rw [compute_streak_of_not_mem hnot]
    refine ⟨fun k hk => absurd hk (by omega), ?_, Nat.zero_le _⟩
    simpa using hnot
  | succ n ih =>
    intro S t hle
    by_cases h : t ∈ S
    · have hdec := filter_le_card_decreases h
      have hle' : (S.filter (fun d => d ≤ t - 1)).card ≤ n := by omega
      obtain ⟨ih1, ih2, ih3⟩ := ih S (t - 1) hle'
      rw [compute_streak_of_mem h]
      refine ⟨?_, ?_, by omega⟩
      · intro k hk
        cases k with
        | zero => simpa using h
        | succ j =>
          have hj : j < compute_streak S (t - 1) := by omega
          have hmem := ih1 j hj
          have heq : t - ((j + 1 : ℕ) : ℤ) = t - 1 - (j : ℤ) := by push_cast; ring
          rw [heq]
          exact hmem
      · have heq : t - ((compute_streak S (t - 1) + 1 : ℕ) : ℤ)
            = t - 1 - (compute_streak S (t - 1) : ℤ) := by push_cast; ring
        rw [heq]
        exact ih2
    · rw [compute_streak_of_not_mem h]
      refine ⟨fun k hk => absurd hk (by omega), ?_, Nat.zero_le _⟩
      simpa using h

lemma compute_streak_consecutive (S : Finset ℤ) (t : ℤ) :
    ∀ k : ℕ, k < compute_streak S t → t - (k : ℤ) ∈ S :=
  (streak_spec_aux _ S t (le_refl _)).1

lemma compute_streak_gap (S : Finset ℤ) (t : ℤ) :
    (t - (compute_streak S t : ℤ)) ∉ S :=
  (streak_spec_aux _ S t (le_refl _)).2.1

lemma compute_streak_le_filter (S : Finset ℤ) (t : ℤ) :
    compute_streak S t ≤ (S.filter (fun d => d ≤ t)).card :=
  (streak_spec_aux _ S t (le_refl _)).2.2

lemma compute_streak_unique (S : Finset ℤ) (t : ℤ) (n : ℕ)
    (hmem : ∀ k : ℕ, k < n → t - (k : ℤ) ∈ S) (hstop : t - (n : ℤ) ∉ S) :
    compute_streak S t = n := by
  rcases lt_trichotomy (compute_streak S t) n with hlt | heq | hgt
  · exact absurd (hmem _ hlt) (compute_streak_gap S t)
  · exact heq
  · exact absurd (compute_streak_consecutive S t n hgt) hstop

/-- C4: the streak is exactly the number of consecutive days counting backward
from today (inclusive) present in the date set, stopping at the first gap; it
is 0 whenever today itself is absent.  With dates 2024-01-01..03 encoded as
1, 2, 3: today=3 gives 3, today=4 gives 0, today=2 gives 2. -/
theorem streak_characterization :
    (∀ (S : Finset ℤ) (t : ℤ) (n : ℕ),
        (∀ k : ℕ, k < n → t - (k : ℤ) ∈ S) → (t - (n : ℤ) ∉ S) →
        compute_streak S t = n) ∧
    (∀ (S : Finset ℤ) (t : ℤ), t ∉ S → compute_streak S t = 0) ∧
    compute_streak ({1, 2, 3} : Finset ℤ) 3 = 3 ∧
    compute_streak ({1, 2, 3} : Finset ℤ) 4 = 0 ∧
    compute_streak ({1, 2, 3} : Finset ℤ) 2 = 2 := by
  refine ⟨compute_streak_unique, fun S t h => compute_streak_of_not_mem h, ?_, ?_, ?_⟩
  · exact compute_streak_unique _ _ 3 (by intro k hk; interval_cases k <;> decide) (by decide)
  · exact compute_streak_unique _ _ 0 (by intro k hk; omega) (by decide)
  · exact compute_streak_unique _ _ 2 (by intro k hk; interval_cases k <;> decide) (by decide)

/-- Witness for `streak_characterization`: its first component applied at the
concrete set {1,2,3}, today = 3, n = 3. -/
theorem streak_characterization_witness :
    compute_streak ({1, 2, 3} : Finset ℤ) 3 = 3 :=
  streak_characterization.1 {1, 2, 3} 3 3
    (by intro k hk; interval_cases k <;> decide) (by decide)

/-- C10: the streak loop terminates (it is a total function here) and its
value never exceeds the number of distinct dates in the set. -/
theorem streak_bounded_by_card :
    ∀ (S : Finset ℤ) (t : ℤ), compute_streak S t ≤ S.card :=
  fun S t =>
    le_trans (compute_streak_le_filter S t)
      (Finset.card_le_card (Finset.filter_subset _ S))

/-! ## Header metrics (src/app/app.py lines 86–114)

`header_section` parses `Date` (failures become NaT, here `none`) and `Hours`
(`pd.to_numeric(...).fillna(0.0)`, so a parsed row always carries a rational),
then computes total hours, 7-day hours, the streak and the top subject. -/

/-- A parsed log row as `header_section` sees it: an optional date
(`NaT` = `none`) and the coerced `Hours` value. -/
structure HeaderRow where
  date : Option ℤ
  hours : ℚ
deriving DecidableEq

/-- `total_hours = float(df["Hours"].sum())` — sums every parsed row. -/
def totalHours (rows : List HeaderRow) : ℚ :=
  (rows.map (fun r => r.hours)).sum

/-- `df_week = df[df["DateOnly"].notna() & (df["DateOnly"] >= week_start)]`
with `week_start = today - 6 days`, then `week_hours = df_week["Hours"].sum()`.
Note the filter has no upper bound on the date. -/
def weekHours (rows : List HeaderRow) (today : ℤ) : ℚ :=
  ((rows.filter (fun r =>
      match r.date with
      | some d => decide (today - 6 ≤ d)
      | none => false)).map (fun r => r.hours)).sum

/-- `dates_set = set(df["DateOnly"].dropna())` — the distinct session dates. -/
def datesSet (rows : List HeaderRow) : Finset ℤ :=
  (rows.filterMap (fun r => r.date)).toFinset

/-- `streak = compute_streak(dates_set, today_date)` in `header_section`. -/
def headerStreak (rows : List HeaderRow) (today : ℤ) : ℕ :=
  compute_streak (datesSet rows) today

/-- The Dashboard page's `df = df[df['Hours'] >= 0]` filter (app.py line 321):
every chart on that page is computed from this filtered frame. -/
def dashboardRows (rows : List HeaderRow) : List HeaderRow :=
  rows.filter (fun r => decide (0 ≤ r.hours))

/-! ## Goals page (src/app/app.py lines 413–438) -/

/-- A study-log row as the Goals page's groupby sees it. -/
structure LogRow where
  subject : String
  hours : ℚ
deriving DecidableEq

/-- `log_df.groupby("Subject")["Hours"].sum()` merged left onto the goals with
`fillna(0)`: the actual hours credited to one goal subject are the sum of
`Hours` over rows whose `Subject` equals it exactly (0 if none match). -/
def actualHoursFor (s : String) (rows : List LogRow) : ℚ :=
  ((rows.filter (fun r => r.subject == s)).map (fun r => r.hours)).sum

/-- `(ActualHours / TargetHours.replace(0, np.inf)) * 100`, then
`.clip(upper=100).astype(int)` — a zero target divides to 0, the ratio is
clamped at 100 and truncated to an integer. -/
def progressPercent (target actual : ℚ) : ℤ :=
  let raw : ℚ := if target = 0 then 0 else actual / target * 100
  ratTrunc (min raw 100)

/-- The subject choices of the Log Study Session form (app.py line 252). -/
def formSubjects : List String := ["", "DSA", "Development", "DS", "GATE"]

/-- The subjects of the built-in default goal set (app.py line 417). -/
def defaultGoalSubjects : List String := ["DSA", "Dev", "DS", "GATE"]

/-! ### C1 — where the `hours >= 0` filter actually applies -/

lemma sum_map_filter_split {α : Type} (f : α → ℚ) (p q1 q2 : α → Bool)
    (hsplit : ∀ r, p r = (q1 r || q2 r)) (hdisj : ∀ r, ¬(q1 r = true ∧ q2 r = true)) :
    ∀ rows : List α,
      ((rows.filter p).map f).sum
        = ((rows.filter q1).map f).sum + ((rows.filter q2).map f).sum := by
  intro rows
  induction rows with
  | nil => simp
  | cons a l ih =>
    rw [List.filter_cons, List.filter_cons, List.filter_cons, hsplit a]
    by_cases h1 : q1 a = true
    · have h2 : q2 a = false := Bool.eq_false_iff.mpr (fun ht => hdisj a ⟨h1, ht⟩)
      simp only [h1, h2, Bool.true_or, if_true, Bool.false_eq_true, if_false,
        List.map_cons, List.sum_cons, ih]
      ring
    · have h1' : q1 a = false := by simpa using h1
      by_cases h2 : q2 a = true
      · simp only [h1', h2, Bool.or_true, if_true, Bool.false_eq_true, if_false,
          List.map_cons, List.sum_cons, ih]
        ring
      · have h2' : q2 a = false := by simpa using h2
        simp only [h1', h2', Bool.or_false, Bool.false_eq_true, if_false, ih]

/-- C1 counterexample: a single row with hours = −5 changes the header total,
the 7-day total, the streak input and the goal actuals — none of these drop
the negative-hours record, so they do not depend only on rows with
hours ≥ 0 (removing the negative row changes every one of these outputs). -/
theorem negative_hours_reach_header_and_goals :
    totalHours [⟨some 0, -5⟩] = -5 ∧ totalHours (dashboardRows [⟨some 0, -5⟩]) = 0 ∧
    weekHours [⟨some 0, -5⟩] 0 = -5 ∧ weekHours (dashboardRows [⟨some 0, -5⟩]) 0 = 0 ∧
    headerStreak [⟨some 0, -5⟩] 0 = 1 ∧ headerStreak (dashboardRows [⟨some 0, -5⟩]) 0 = 0 ∧
    actualHoursFor "DSA" [⟨"DSA", -5⟩] = -5 ∧ actualHoursFor "DSA" [] = 0 ∧
    ((-5 : ℚ) ≠ 0) := by
  have hdash : dashboardRows [⟨some 0, -5⟩] = [] := by
    norm_num [dashboardRows]
  have hds : datesSet [(⟨some 0, -5⟩ : HeaderRow)] = {0} := by
    simp [datesSet]
  refine ⟨by norm_num [totalHours], ?_, by norm_num [weekHours], ?_, ?_, ?_,
    by norm_num [actualHoursFor], by norm_num [actualHoursFor], by norm_num⟩
  · rw [hdash]; norm_num [totalHours]
  · rw [hdash]; norm_num [weekHours]
  · rw [headerStreak, hds]
    exact compute_streak_unique _ _ 1
      (by intro k hk; interval_cases k; decide) (by decide)
  · rw [headerStreak, hdash]
    refine compute_streak_of_not_mem ?_
    simp [datesSet]

/-- C1 amended: the `hours >= 0` filter is applied only to the Dashboard
page's dataframe, whose rows are therefore all non-negative; the header's
total-hours metric and the goal actuals sum over all parsed rows, splitting
exactly into the non-negative part plus the (signed) negative part. -/
theorem negative_hours_filter_scope :
    (∀ (rows : List HeaderRow) (r : HeaderRow), r ∈ dashboardRows rows → 0 ≤ r.hours) ∧
    (∀ rows : List HeaderRow,
        totalHours rows = totalHours (dashboardRows rows)
          + totalHours (rows.filter (fun r => decide (r.hours < 0)))) ∧
    (∀ (s : String) (rows : List LogRow),
        actualHoursFor s rows
          = actualHoursFor s (rows.filter (fun r => decide (0 ≤ r.hours)))
          + actualHoursFor s (rows.filter (fun r => decide (r.hours < 0)))) := by
  refine ⟨?_, ?_, ?_⟩
  · intro rows r hr
    have := List.of_mem_filter hr
    simpa using this
  · intro rows
    have h := sum_map_filter_split (fun r : HeaderRow => r.hours) (fun _ => true)
      (fun r => decide (0 ≤ r.hours)) (fun r => decide (r.hours < 0))
      (fun r => by
        rcases le_or_lt 0 r.hours with h | h
        · simp [h]
        · simp [h, not_le.mpr h])
      (fun r => by
        rintro ⟨h1, h2⟩
        rw [decide_eq_true_eq] at h1 h2
        exact absurd h1 (not_le.mpr h2))
      rows
    rw [List.filter_true] at h
    simp only [totalHours, dashboardRows]
    exact h
  · intro s rows
    have h := sum_map_filter_split (fun r : LogRow => r.hours)
      (fun r => r.subject == s)
      (fun r => (r.subject == s) && decide (0 ≤ r.hours))
      (fun r => (r.subject == s) && decide (r.hours < 0))
      (fun r => by
        rcases le_or_lt 0 r.hours with h | h
        · simp [h, not_lt.mpr h]
        · simp [h, not_le.mpr h])
      (fun r => by
        rintro ⟨h1, h2⟩
        rw [Bool.and_eq_true, decide_eq_true_eq] at h1 h2
        exact absurd h1.2 (not_le.mpr h2.2))
      rows
    simp only [actualHoursFor]
    rw [List.filter_filter, List.filter_filter]
    exact h

/-- Witness for `negative_hours_filter_scope`: its first component applied to
the one-row list with hours = 2. -/
theorem negative_hours_filter_scope_witness :
    0 ≤ (HeaderRow.mk (some 0) 2).hours :=
  negative_hours_filter_scope.1 [⟨some 0, 2⟩] ⟨some 0, 2⟩
    (by rw [dashboardRows]; norm_num [List.mem_filter])

/-! ### C2 — the 7-day window has no upper bound -/

/-- Modelled from the spec: the rolling 7-day total as the spec words it, the
sum of hours over sessions dated within the closed interval
[today − 6, today]. -/
def specWeekHours (rows : List HeaderRow) (today : ℤ) : ℚ :=
  ((rows.filter (fun r =>
      match r.date with
      | some d => decide (today - 6 ≤ d ∧ d ≤ today)
      | none => false)).map (fun r => r.hours)).sum

/-- Hours of rows dated strictly after the reference day. -/
def futureHours (rows : List HeaderRow) (today : ℤ) : ℚ :=
  ((rows.filter (fun r =>
      match r.date with
      | some d => decide (today < d)
      | none => false)).map (fun r => r.hours)).sum

/-- C2 counterexample: a session dated one day after today (date 1, today 0)
is counted by the code's 7-day total but lies outside [today − 6, today], so
sessions dated after today are not excluded. -/
theorem week_window_includes_future_date :
    weekHours [⟨some 1, 2⟩] 0 = 2 ∧ specWeekHours [⟨some 1, 2⟩] 0 = 0 ∧
    ((2 : ℚ) ≠ 0) := by
  refine ⟨by norm_num [weekHours], by norm_num [specWeekHours], by norm_num⟩

/-- C2 amended: the code's 7-day total only enforces the lower bound
today − 6; it equals the spec's closed-interval total plus the hours of all
sessions dated after today. -/
theorem week_hours_decomposition :
    ∀ (rows : List HeaderRow) (today : ℤ),
      weekHours rows today = specWeekHours rows today + futureHours rows today := by
  intro rows today
  have h := sum_map_filter_split (fun r : HeaderRow => r.hours)
    (fun r => match r.date with
      | some d => decide (today - 6 ≤ d)
      | none => false)
    (fun r => match r.date with
      | some d => decide (today - 6 ≤ d ∧ d ≤ today)
      | none => false)
    (fun r => match r.date with
      | some d => decide (today < d)
      | none => false)
    (fun r => by
      rcases hr : r.date with _ | d
      · simp only [hr]
        rfl
      · simp only [hr]
        rw [← Bool.decide_or, decide_eq_decide]
        omega)
    (fun r => by
      rcases hr : r.date with _ | d
      · simp only [hr]
        rintro ⟨h1, h2⟩
        simp at h1
      · simp only [hr]
        rintro ⟨h1, h2⟩
        rw [decide_eq_true_eq] at h1 h2
        omega)
    rows
  simp only [weekHours, specWeekHours, futureHours]
  exact h

/-! ### C3 — goal progress percent -/

lemma ratTrunc_le {q : ℚ} {n : ℤ} (hn : 0 ≤ n) (h : q ≤ (n : ℚ)) : ratTrunc q ≤ n := by
  rw [ratTrunc]
  by_cases hq : q < 0
  · rw [if_pos hq]
    have hfl : 0 ≤ Int.floor (-q) := Int.floor_nonneg.mpr (by linarith)
    omega
  · rw [if_neg hq]
    have hfl := Int.floor_le_floor h
    simpa using hfl

/-- C3 counterexample: target = 3, actual = 1 gives percent 33, while
`actual / target * 100` clamped at 100 is 100/3; the stored percent is an
integer truncation, not the clamped ratio itself. -/
theorem progress_percent_truncates :
    progressPercent 3 1 = 33 ∧ ((33 : ℚ) ≠ min ((1 : ℚ) / 3 * 100) 100) := by
  constructor
  · have hmin : min ((1 : ℚ) / 3 * 100) 100 = 100 / 3 := by
      rw [min_eq_left (by norm_num)]
      norm_num
    have h3 : ¬ ((3 : ℚ) = 0) := by norm_num
    simp only [progressPercent, if_neg h3, hmin, ratTrunc,
      if_neg (by norm_num : ¬ (100 / 3 : ℚ) < 0)]
    rw [Int.floor_eq_iff]
    norm_num
  · rw [min_eq_left (by norm_num)]
    norm_num

/-- C3 amended: the percent equals `actual / target * 100` clamped at 100 and
then truncated to an integer (`astype(int)`); with a positive target and
non-negative actual this is the floor of the clamped ratio; a zero target
gives 0; the percent never exceeds 100; the spec's three examples hold. -/
theorem progress_percent_spec :
    (∀ t a : ℚ, 0 < t → 0 ≤ a →
        progressPercent t a = Int.floor (min (a / t * 100) 100)) ∧
    (∀ a : ℚ, progressPercent 0 a = 0) ∧
    (∀ t a : ℚ, progressPercent t a ≤ 100) ∧
    progressPercent 10 12 = 100 ∧ progressPercent 0 5 = 0 ∧ progressPercent 10 0 = 0 := by
  refine ⟨?_, ?_, ?_, ?_, ?_, ?_⟩
  · intro t a ht ha
    have ht' : ¬ (t = 0) := ne_of_gt ht
    have hraw : 0 ≤ a / t * 100 := by positivity
    have hmin : 0 ≤ min (a / t * 100) 100 := le_min hraw (by norm_num)
    simp only [progressPercent, if_neg ht', ratTrunc, if_neg (not_lt.mpr hmin)]
  · intro a
    simp only [progressPercent, if_pos rfl, ratTrunc]
    rw [min_eq_left (by norm_num), if_neg (by norm_num)]
    simp
  · intro t a
    simp only [progressPercent]
    exact ratTrunc_le (by norm_num) (by exact_mod_cast min_le_right _ _)
  · have h10 : ¬ ((10 : ℚ) = 0) := by norm_num
    have hmin : min ((12 : ℚ) / 10 * 100) 100 = 100 := by
      rw [min_eq_right (by norm_num)]
    simp only [progressPercent, if_neg h10, hmin, ratTrunc,
      if_neg (by norm_num : ¬ ((100 : ℚ) < 0))]
    norm_num
  · simp only [progressPercent, if_pos rfl, ratTrunc]
    rw [min_eq_left (by norm_num), if_neg (by norm_num)]
    simp
  · have h10 : ¬ ((10 : ℚ) = 0) := by norm_num
    have hz : (0 : ℚ) / 10 * 100 = 0 := by norm_num
    simp only [progressPercent, if_neg h10, hz, ratTrunc]
    rw [min_eq_left (by norm_num), if_neg (by norm_num)]
    simp

/-- Witness for `progress_percent_spec`: its first component at target 3,
actual 1. -/
theorem progress_percent_spec_witness :
    progressPercent 3 1 = Int.floor (min ((1 : ℚ) / 3 * 100) 100) :=
  progress_percent_spec.1 3 1 (by norm_num) (by norm_num)

/-! ### C9 — form subjects vs default goal subjects -/

lemma actualHoursFor_cons (g : String) (a : LogRow) (l : List LogRow) :
    actualHoursFor g (a :: l)
      = (if a.subject == g then a.hours else 0) + actualHoursFor g l := by
  rw [actualHoursFor, actualHoursFor, List.filter_cons]
  by_cases h : a.subject == g
  · rw [if_pos h, if_pos h, List.map_cons, List.sum_cons]
  · rw [if_neg h, if_neg h, zero_add]

/-- C9: the session form offers "Development" while the default goals use
"Dev"; the goal join matches subjects by exact string equality, so any
history of form-logged sessions credits 0 hours to the "Dev" goal, and
sessions with subject "Development" contribute nothing to any default goal. -/
theorem subject_mismatch_dev :
    ("Development" ∈ formSubjects ∧ "Development" ∉ defaultGoalSubjects ∧
      "Dev" ∈ defaultGoalSubjects ∧ "Dev" ∉ formSubjects) ∧
    (∀ rows : List LogRow, (∀ r ∈ rows, r.subject ∈ formSubjects) →
      actualHoursFor "Dev" rows = 0) ∧
    (∀ (g : String) (rows : List LogRow), g ∈ defaultGoalSubjects →
      actualHoursFor g (rows.filter (fun r => !(r.subject == "Development")))
        = actualHoursFor g rows) := by
  refine ⟨⟨by decide, by decide, by decide, by decide⟩, ?_, ?_⟩
  · intro rows hall
    rw [actualHoursFor]
    have hnil : rows.filter (fun r => r.subject == "Dev") = [] := by
      rw [List.filter_eq_nil_iff]
      intro r hr
      have hs := hall r hr
      simp only [formSubjects, List.mem_cons, List.not_mem_nil, or_false] at hs
      rcases hs with h | h | h | h | h <;> rw [h] <;> decide
    rw [hnil]
    rfl
  · intro g rows hg
    induction rows with
    | nil => rfl
    | cons a l ih =>
      by_cases hdev : a.subject == "Development"
      · have ha : a.subject = "Development" := by simpa using hdev
        have hag : (a.subject == g) = false := by
          rw [ha]
          fin_cases hg <;> decide
        simp [List.filter_cons, hdev, actualHoursFor_cons, hag, ih]
      · have hdev' : (a.subject == "Development") = false := by simpa using hdev
        simp [List.filter_cons, hdev', actualHoursFor_cons, ih]

/-- Witness for `subject_mismatch_dev`: a single form-logged session with
subject "Development" credits 0 hours to the "Dev" goal. -/
theorem subject_mismatch_dev_witness :
    actualHoursFor "Dev" [⟨"Development", 2⟩] = 0 :=
  subject_mismatch_dev.2.1 [⟨"Development", 2⟩]
    (by intro r hr; simp only [List.mem_singleton] at hr; rw [hr]; decide)

/-! ## Dashboard hourly distribution (src/app/app.py lines 323–352)

`Start_dt`/`End_dt` are built from `Date` plus the time strings; when
`End_dt < Start_dt` one day (1440 minutes) is added to the end; the chart
expands each session into `pd.date_range(Start_dt.floor('H'), End_dt,
freq='H').hour`, one count per hour bucket. Times are minutes since
midnight. -/

/-- The end instant after the midnight correction
(`df.loc[df["End_dt"] < df["Start_dt"], "End_dt"] += timedelta(days=1)`). -/
def endAbs (startMin endMin : ℕ) : ℕ :=
  if endMin < startMin then endMin + 1440 else endMin

/-- The hour-of-day buckets one session contributes to: hourly instants from
the floor of the start down to the hour, while they do not pass the corrected
end, each taken modulo 24. -/
def sessionHourBuckets (startMin endMin : ℕ) : List ℕ :=
  let f := startMin / 60 * 60
  (List.range ((endAbs startMin endMin - f) / 60 + 1)).map
    (fun i => (f + 60 * i) / 60 % 24)

/-- C5: an end time numerically before the start time gets 24 hours added,
and a session contributes one count to each hour-of-day bucket from its start
hour through its end hour; 23:30–00:30 (1410 and 30 minutes) hits buckets
23 and 0. -/
theorem hour_buckets_spec :
    sessionHourBuckets 1410 30 = [23, 0] ∧
    (∀ s e : ℕ, e < s → endAbs s e = e + 1440) ∧
    (∀ s e : ℕ, s < 1440 → e < 1440 →
      sessionHourBuckets s e
        = (List.range (endAbs s e / 60 - s / 60 + 1)).map
            (fun i => (s / 60 + i) % 24)) := by
  refine ⟨by decide, fun s e h => if_pos h, ?_⟩
  intro s e hs he
  have hfe : s / 60 * 60 ≤ endAbs s e := by
    rw [endAbs]
    split <;> omega
  simp only [sessionHourBuckets]
  have hcount : (endAbs s e - s / 60 * 60) / 60 + 1 = endAbs s e / 60 - s / 60 + 1 := by
    omega
  rw [hcount]
  refine List.map_congr_left ?_
  intro i _
  omega

/-- Witness for `hour_buckets_spec`: its general component applied to the
23:30–00:30 session. -/
theorem hour_buckets_spec_witness :
    sessionHourBuckets 1410 30
      = (List.range (endAbs 1410 30 / 60 - 1410 / 60 + 1)).map
          (fun i => (1410 / 60 + i) % 24) :=
  hour_buckets_spec.2.2 1410 30 (by decide) (by decide)

/-! ## Session store (src/app/app.py lines 23–28 and 451–462)

A CSV file is a list of lines (each a list of cells); `Store.missing` is a
non-existent file.  `save_session_to_csv` appends one row, writing the
header first exactly when the file is missing or empty; the Settings page's
clear button overwrites an existing file with the fixed header row only and
does nothing when the file is missing. -/

inductive Store where
  | missing : Store
  | file : List (List String) → Store
deriving DecidableEq

/-- The fixed header used by the Settings page's clear action. -/
def header_columns : List String :=
  ["Date", "Subject", "Topic", "Start Time", "End Time", "Planned End Time",
   "Hours", "Productivity", "Start Mood", "End Mood", "Notes", "Timestamp"]

/-- `save_session_to_csv`: append one entry (a dict, kept as key–value
pairs); `write_header = not os.path.exists(filename) or getsize == 0`. -/
def save_session_to_csv (entry : List (String × String)) : Store → Store
  | .missing => .file [entry.map Prod.fst, entry.map Prod.snd]
  | .file lines =>
      if lines.isEmpty then .file [entry.map Prod.fst, entry.map Prod.snd]
      else .file (lines ++ [entry.map Prod.snd])

/-- The Clear All Study Logs action: overwrite an existing file with the
header only; warn (no write) when the file does not exist. -/
def clearLogs : Store → Store
  | .missing => .missing
  | .file _ => .file [header_columns]

/-- Reading the full history: the first line is the header, the rest are the
records; a missing or empty file reads as no records. -/
def load_all : Store → List (List String)
  | .missing => []
  | .file [] => []
  | .file (_ :: rows) => rows

/-- Whether the store currently holds a header/schema line. -/
def hasHeaderRow : Store → Bool
  | .file (_ :: _) => true
  | _ => false

/-- C6 counterexample: on a missing store the clear action writes nothing, so
after `clear()` no header/schema row is retained (the claim asserts retention
for every store state). -/
theorem clear_missing_store_no_header :
    hasHeaderRow (clearLogs Store.missing) = false ∧
    load_all (clearLogs Store.missing) = [] := ⟨rfl, rfl⟩

/-- C6 amended: for every existing store, clear leaves exactly the header
row, a full read then yields no records, and a subsequent append writes the
record without re-writing the header, leaving exactly header + record; for a
missing store clear is a no-op and the append itself creates header +
record. -/
theorem clear_then_append_spec :
    (∀ lines : List (List String),
        clearLogs (Store.file lines) = Store.file [header_columns] ∧
        load_all (clearLogs (Store.file lines)) = [] ∧
        ∀ entry : List (String × String),
          save_session_to_csv entry (clearLogs (Store.file lines))
            = Store.file [header_columns, entry.map Prod.snd]) ∧
    (clearLogs Store.missing = Store.missing ∧
      ∀ entry : List (String × String),
        save_session_to_csv entry (clearLogs Store.missing)
          = Store.file [entry.map Prod.fst, entry.map Prod.snd]) :=
  ⟨fun _ => ⟨rfl, rfl, fun _ => rfl⟩, rfl, fun _ => rfl⟩

/-! ## Smart Insights (src/app/app.py lines 385–411)

Sessions are modelled by the fields each insight reads: for the
by-hour insight a pair (start hour, productivity); for the by-mood insight a
pair (start mood, productivity).  `groupby` sorts its keys ascending; the
start hour is `Start_dt.dt.hour`, always 0–23. -/

/-- Mean productivity over the sessions whose start hour is `h`
(one `groupby("Start_Hour")["Productivity"].mean()` group). -/
def meanAtHour (sessions : List (ℕ × ℚ)) (h : ℕ) : ℚ :=
  let xs := (sessions.filter (fun p => p.1 == h)).map Prod.snd
  xs.sum / (xs.length : ℚ)

/-- `prod_by_hour`: the distinct start hours in ascending order, each paired
with its mean productivity rounded to one decimal. -/
def prodByHour (sessions : List (ℕ × ℚ)) : List (ℕ × ℚ) :=
  ((List.range 24).filter (fun h => sessions.any (fun p => p.1 == h))).map
    (fun h => (h, round1 (meanAtHour sessions h)))

/-- One step of pandas `idxmax` scanning: keep the incumbent unless the new
entry is strictly larger. -/
def stepMax (best p : ℕ × ℚ) : ℕ × ℚ := if best.2 < p.2 then p else best

/-- `idxmax` over the second components: the first entry attaining the
maximum (`none` on an empty frame). -/
def firstMaxSnd : List (ℕ × ℚ) → Option (ℕ × ℚ)
  | [] => none
  | x :: xs => some (xs.foldl stepMax x)

/-- The peak-productivity row `prod_by_hour.loc[prod_by_hour['Productivity'].idxmax()]`. -/
def peakHour (sessions : List (ℕ × ℚ)) : Option (ℕ × ℚ) :=
  firstMaxSnd (prodByHour sessions)

lemma foldl_stepMax_spec :
    ∀ (l : List (ℕ × ℚ)) (x : ℕ × ℚ),
      (l.foldl stepMax x = x ∨ l.foldl stepMax x ∈ l) ∧
      x.2 ≤ (l.foldl stepMax x).2 ∧
      ∀ p ∈ l, p.2 ≤ (l.foldl stepMax x).2 := by
  intro l
  induction l with
  | nil =>
    intro x
    exact ⟨Or.inl rfl, le_refl _, fun p hp => absurd hp (List.not_mem_nil p)⟩
  | cons q t ih =>
    intro x
    rw [List.foldl_cons]
    obtain ⟨ih1, ih2, ih3⟩ := ih (stepMax x q)
    have hs_or : stepMax x q = x ∨ stepMax x q = q := by
      rw [stepMax]
      by_cases h : x.2 < q.2
      · rw [if_pos h]; exact Or.inr rfl
      · rw [if_neg h]; exact Or.inl rfl
    have hx_le : x.2 ≤ (stepMax x q).2 := by
      rw [stepMax]
      by_cases h : x.2 < q.2
      · rw [if_pos h]; exact le_of_lt h
      · rw [if_neg h]
    have hq_le : q.2 ≤ (stepMax x q).2 := by
      rw [stepMax]
      by_cases h : x.2 < q.2
      · rw [if_pos h]
      · rw [if_neg h]; exact le_of_not_lt h
    refine ⟨?_, le_trans hx_le ih2, ?_⟩
    · rcases ih1 with h1 | h1
      · rw [h1]
        rcases hs_or with h2 | h2
        · exact Or.inl h2
        · exact Or.inr (by rw [h2]; exact List.mem_cons_self q t)
      · exact Or.inr (List.mem_cons_of_mem q h1)
    · intro p hp
      rcases List.mem_cons.mp hp with hp | hp
      · rw [hp]; exact le_trans hq_le ih2
      · exact ih3 p hp

lemma foldl_stepMax_first :
    ∀ (l : List (ℕ × ℚ)) (x : ℕ × ℚ),
      List.Pairwise (fun a b : ℕ × ℚ => a.1 < b.1) (x :: l) →
      ∀ p ∈ x :: l, p.2 = (l.foldl stepMax x).2 → (l.foldl stepMax x).1 ≤ p.1 := by
  intro l
  induction l with
  | nil =>
    intro x _ p hp _
    rw [List.mem_singleton] at hp
    rw [List.foldl_nil, hp]
  | cons q t ih =>
    intro x hpw p hp hpr
    rw [List.foldl_cons] at hpr ⊢
    have hxq : x.1 < q.1 :=
      (List.pairwise_cons.mp hpw).1 q (List.mem_cons_self q t)
    have hqt := (List.pairwise_cons.mp hpw).2
    have hx_t : ∀ b ∈ t, x.1 < b.1 := fun b hb =>
      (List.pairwise_cons.mp hpw).1 b (List.mem_cons_of_mem q hb)
    have hq_t : ∀ b ∈ t, q.1 < b.1 := fun b hb =>
      (List.pairwise_cons.mp hqt).1 b hb
    have hpw' : List.Pairwise (fun a b : ℕ × ℚ => a.1 < b.1) (stepMax x q :: t) := by
      rw [List.pairwise_cons]
      refine ⟨?_, (List.pairwise_cons.mp hqt).2⟩
      intro b hb
      rw [stepMax]
      by_cases h : x.2 < q.2
      · rw [if_pos h]; exact hq_t b hb
      · rw [if_neg h]; exact hx_t b hb
    obtain ⟨_, ihA2, _⟩ := foldl_stepMax_spec t (stepMax x q)
    have ihB := ih (stepMax x q) hpw'
    by_cases h : x.2 < q.2
    · have hx' : stepMax x q = q := by rw [stepMax, if_pos h]
      rcases List.mem_cons.mp hp with hp' | hp'
      · exfalso
        have hq_le : q.2 ≤ (t.foldl stepMax (stepMax x q)).2 :=
          le_trans (le_of_eq (by rw [hx'])) ihA2
        rw [hp'] at hpr
        exact absurd hpr (ne_of_lt (lt_of_lt_of_le h hq_le))
      · rcases List.mem_cons.mp hp' with hp'' | hp''
        · refine ihB p ?_ hpr
          rw [hx', hp'']
          exact List.mem_cons_self _ _
        · exact ihB p (List.mem_cons_of_mem _ hp'') hpr
    · have hx' : stepMax x q = x := by rw [stepMax, if_neg h]
      rcases List.mem_cons.mp hp with hp' | hp'
      · refine ihB p ?_ hpr
        rw [hx', hp']
        exact List.mem_cons_self _ _
      · rcases List.mem_cons.mp hp' with hp'' | hp''
        · -- p = q and its mean ties the maximum: then x also ties, and the
          -- result key is at most x's key, which is below q's key.
          have hx_le : x.2 ≤ (t.foldl stepMax (stepMax x q)).2 :=
            le_trans (le_of_eq (by rw [hx'])) ihA2
          have hqx : q.2 ≤ x.2 := le_of_not_lt h
          have hxr : x.2 = (t.foldl stepMax (stepMax x q)).2 := by
            rw [hp''] at hpr
            exact le_antisymm hx_le (by rw [← hpr]; exact hqx)
          have hrx := ihB x (by rw [hx']; exact List.mem_cons_self _ _) hxr
          rw [hp'']
          exact le_of_lt (lt_of_le_of_lt hrx hxq)
        · exact ihB p (List.mem_cons_of_mem _ hp'') hpr

/-- C7: whenever the by-hour insight reports a peak row (h, m), that row is
one of the grouped rows, m is the rounded mean for hour h, m is the maximum
of the rounded means, and every other hour attaining m has a larger hour
value (idxmax keeps the first, i.e. smallest, hour of a tie). -/
theorem peak_hour_spec :
    ∀ (sessions : List (ℕ × ℚ)) (h : ℕ) (m : ℚ),
      peakHour sessions = some (h, m) →
      ((h, m) ∈ prodByHour sessions ∧
       m = round1 (meanAtHour sessions h) ∧
       ∀ p ∈ prodByHour sessions, p.2 ≤ m ∧ (p.2 = m → h ≤ p.1)) := by
  intro sessions h m hpk
  rw [peakHour] at hpk
  have hkeys : List.Pairwise (fun a b : ℕ × ℚ => a.1 < b.1) (prodByHour sessions) := by
    rw [prodByHour, List.pairwise_map]
    exact (List.pairwise_lt_range 24).filter _
  cases hl : prodByHour sessions with
  | nil =>
    rw [hl] at hpk
    exact absurd hpk (by simp [firstMaxSnd])
  | cons x xs =>
    rw [hl] at hpk hkeys
    simp only [firstMaxSnd, Option.some.injEq] at hpk
    obtain ⟨hA1, hA2, hA3⟩ := foldl_stepMax_spec xs x
    have hmem : (h, m) ∈ x :: xs := by
      rw [← hpk]
      rcases hA1 with h1 | h1
      · rw [h1]; exact List.mem_cons_self x xs
      · exact List.mem_cons_of_mem x h1
    have hmem' : (h, m) ∈ prodByHour sessions := by rw [hl]; exact hmem
    refine ⟨hmem, ?_, ?_⟩
    · rw [prodByHour] at hmem'
      obtain ⟨k, _, hk⟩ := List.mem_map.mp hmem'
      have hk1 : k = h := congrArg Prod.fst hk
      have hk2 : round1 (meanAtHour sessions k) = m := congrArg Prod.snd hk
      rw [← hk2, hk1]
    · intro p hp
      have hsnd : (List.foldl stepMax x xs).2 = m := by rw [hpk]
      constructor
      · rcases List.mem_cons.mp hp with hp' | hp'
        · rw [hp', ← hsnd]
          exact hA2
        · rw [← hsnd]
          exact hA3 p hp'
      · intro hpm
        have hfirst := foldl_stepMax_first xs x hkeys p hp
        rw [hpk] at hfirst
        exact hfirst hpm

/-- Witness for `peak_hour_spec`: two hours 9 and 14 tie with mean 8; the
reported peak row is (9, 8) and it belongs to the grouped rows. -/
theorem peak_hour_spec_witness :
    ((9 : ℕ), (8 : ℚ)) ∈ prodByHour [((9 : ℕ), (8 : ℚ)), (14, 8)] := by
  have hfil9 : List.filter (fun p => p.1 == 9) [((9 : ℕ), (8 : ℚ)), (14, 8)]
      = [(9, 8)] := rfl
  have hfil14 : List.filter (fun p => p.1 == 14) [((9 : ℕ), (8 : ℚ)), (14, 8)]
      = [(14, 8)] := rfl
  have hm9 : meanAtHour [((9 : ℕ), (8 : ℚ)), (14, 8)] 9 = 8 := by
    simp only [meanAtHour, hfil9, List.map_cons, List.map_nil, List.sum_cons,
      List.sum_nil, List.length_cons, List.length_nil]
    norm_num
  have hm14 : meanAtHour [((9 : ℕ), (8 : ℚ)), (14, 8)] 14 = 8 := by
    simp only [meanAtHour, hfil14, List.map_cons, List.map_nil, List.sum_cons,
      List.sum_nil, List.length_cons, List.length_nil]
    norm_num
  have hr8 : round1 (8 : ℚ) = 8 := by
    have hcast := round1_intCast 8
    push_cast at hcast
    exact hcast
  have hkeys : (List.range 24).filter
      (fun h => [((9 : ℕ), (8 : ℚ)), (14, 8)].any (fun p => p.1 == h)) = [9, 14] := by
    decide
  have hpbh : prodByHour [((9 : ℕ), (8 : ℚ)), (14, 8)] = [(9, 8), (14, 8)] := by
    rw [prodByHour, hkeys, List.map_cons, List.map_cons, List.map_nil, hm9, hm14, hr8]
  have hfold : List.foldl stepMax ((9 : ℕ), (8 : ℚ)) [(14, 8)] = (9, 8) := by
    rw [List.foldl_cons, List.foldl_nil, stepMax, if_neg (lt_irrefl (8 : ℚ))]
  have hpk : peakHour [((9 : ℕ), (8 : ℚ)), (14, 8)] = some (9, 8) := by
    rw [peakHour, hpbh]
    simp only [firstMaxSnd]
    rw [hfold]
  exact (peak_hour_spec _ 9 8 hpk).1

/-! ## Productivity by starting mood (src/app/app.py lines 400–411) -/

/-- Mean productivity over the sessions whose start mood is `mood`. -/
def meanAtMood (sessions : List (String × ℚ)) (mood : String) : ℚ :=
  let xs := (sessions.filter (fun p => p.1 == mood)).map Prod.snd
  xs.sum / (xs.length : ℚ)

/-- The descending order used by `sort_values(ascending=False)` on the mean
productivity column. -/
def moodGe (a b : String × ℚ) : Prop := b.2 ≤ a.2

instance : DecidableRel moodGe := fun a b => inferInstanceAs (Decidable (b.2 ≤ a.2))

instance : IsTotal (String × ℚ) moodGe := ⟨fun a b => le_total b.2 a.2⟩

instance : IsTrans (String × ℚ) moodGe := ⟨fun _ _ _ h1 h2 => le_trans h2 h1⟩

/-- `prod_by_mood`: one row per distinct start mood with the rounded mean
productivity, sorted descending by mean. -/
def prodByMood (sessions : List (String × ℚ)) : List (String × ℚ) :=
  List.insertionSort moodGe
    (((sessions.map Prod.fst).dedup).map (fun mood => (mood, round1 (meanAtMood sessions mood))))

/-- The recommendation pair (best mood, worst mood), emitted only when the
grouped frame has more than one row (`if len(prod_by_mood) > 1`). -/
def moodBestWorst (sessions : List (String × ℚ)) : Option (String × String) :=
  match prodByMood sessions with
  | a :: b :: rest => some (a.1, ((b :: rest).getLast (List.cons_ne_nil b rest)).1)
  | _ => none

lemma sorted_moodGe_getLast :
    ∀ (l : List (String × ℚ)) (hne : l ≠ []), List.Sorted moodGe l →
      ∀ p ∈ l, (l.getLast hne).2 ≤ p.2 := by
  intro l
  induction l with
  | nil => intro hne; exact absurd rfl hne
  | cons a t ih =>
    intro hne hs p hp
    cases t with
    | nil =>
      rw [List.mem_singleton] at hp
      rw [hp]
      exact le_refl _
    | cons b t' =>
      rw [List.getLast_cons (List.cons_ne_nil b t')]
      have hs' : List.Sorted moodGe (b :: t') := (List.sorted_cons.mp hs).2
      rcases List.mem_cons.mp hp with hp' | hp'
      · have hlast_mem := List.getLast_mem (List.cons_ne_nil b t')
        have hrel := (List.sorted_cons.mp hs).1 _ hlast_mem
        rw [hp']
        exact hrel
      · exact ih (List.cons_ne_nil b t') hs' p hp'

/-- C8: with the two mood groups {Calm: 8, Stressed: 4} the recommendation is
best = "Calm", worst = "Stressed"; with fewer than two distinct moods no
recommendation is produced; and whenever a recommendation (b, w) is produced
there are at least two groups and b carries the maximal, w the minimal,
rounded mean. -/
theorem mood_best_worst_spec :
    (moodBestWorst [("Calm", 8), ("Stressed", 4)] = some ("Calm", "Stressed")) ∧
    (∀ sessions : List (String × ℚ), ((sessions.map Prod.fst).dedup).length ≤ 1 →
        moodBestWorst sessions = none) ∧
    (∀ (sessions : List (String × ℚ)) (b w : String),
        moodBestWorst sessions = some (b, w) →
        2 ≤ (prodByMood sessions).length ∧
        ∃ mb mw : ℚ, (b, mb) ∈ prodByMood sessions ∧ (w, mw) ∈ prodByMood sessions ∧
          ∀ p ∈ prodByMood sessions, p.2 ≤ mb ∧ mw ≤ p.2) := by
  refine ⟨?_, ?_, ?_⟩
  · have hkeys : (([(("Calm" : String), (8 : ℚ)), ("Stressed", 4)].map Prod.fst).dedup)
        = ["Calm", "Stressed"] := by decide
    have hfil1 : List.filter (fun p => p.1 == "Calm")
        [(("Calm" : String), (8 : ℚ)), ("Stressed", 4)] = [("Calm", 8)] := by
      rfl
    have hfil2 : List.filter (fun p => p.1 == "Stressed")
        [(("Calm" : String), (8 : ℚ)), ("Stressed", 4)] = [("Stressed", 4)] := by
      rfl
    have hmean1 : meanAtMood [(("Calm" : String), (8 : ℚ)), ("Stressed", 4)] "Calm" = 8 := by
      simp only [meanAtMood, hfil1, List.map_cons, List.map_nil, List.sum_cons,
        List.sum_nil, List.length_cons, List.length_nil]
      norm_num
    have hmean2 : meanAtMood [(("Calm" : String), (8 : ℚ)), ("Stressed", 4)] "Stressed" = 4 := by
      simp only [meanAtMood, hfil2, List.map_cons, List.map_nil, List.sum_cons,
        List.sum_nil, List.length_cons, List.length_nil]
      norm_num
    have hr8 : round1 (8 : ℚ) = 8 := by
      have h := round1_intCast 8
      push_cast at h
      exact h
    have hr4 : round1 (4 : ℚ) = 4 := by
      have h := round1_intCast 4
      push_cast at h
      exact h
    have hpbm : prodByMood [(("Calm" : String), (8 : ℚ)), ("Stressed", 4)]
        = [("Calm", 8), ("Stressed", 4)] := by
      rw [prodByMood, hkeys]
      rw [List.map_cons, List.map_cons, List.map_nil, hmean1, hmean2, hr8, hr4]
      rw [List.insertionSort, List.insertionSort, List.insertionSort]
      rw [List.orderedInsert, List.orderedInsert]
      rw [if_pos (show moodGe ("Calm", (8 : ℚ)) ("Stressed", 4) by rw [moodGe]; norm_num)]
    rw [moodBestWorst, hpbm]
    rfl
  · intro sessions hlen
    have hL : (prodByMood sessions).length ≤ 1 := by
      rw [prodByMood, List.length_insertionSort, List.length_map]
      exact hlen
    rw [moodBestWorst]
    cases hl : prodByMood sessions with
    | nil => rfl
    | cons a t =>
      cases t with
      | nil => rfl
      | cons b t' =>
        rw [hl] at hL
        simp at hL
  · intro sessions b w hbw
    have hsorted : List.Sorted moodGe (prodByMood sessions) := by
      rw [prodByMood]
      exact List.sorted_insertionSort moodGe _
    rw [moodBestWorst] at hbw
    cases hl : prodByMood sessions with
    | nil =>
      rw [hl] at hbw
      exact absurd hbw (by simp)
    | cons a t =>
      cases t with
      | nil =>
        rw [hl] at hbw
        exact absurd hbw (by simp)
      | cons q t' =>
        rw [hl] at hbw hsorted
        simp only [Option.some.injEq, Prod.mk.injEq] at hbw
        obtain ⟨hb, hw⟩ := hbw
        set last := (q :: t').getLast (List.cons_ne_nil q t') with hlastdef
        have hlen2 : 2 ≤ (a :: q :: t').length := by
          simp only [List.length_cons]
          omega
        refine ⟨hlen2, a.2, last.2, ?_, ?_, ?_⟩
        · have : (b, a.2) = a := by
            rw [← hb]
          rw [this]
          exact List.mem_cons_self _ _
        · have : (w, last.2) = last := by
            rw [← hw]
          rw [this]
          exact List.mem_cons_of_mem a (List.getLast_mem (List.cons_ne_nil q t'))
        · intro p hp
          constructor
          · rcases List.mem_cons.mp hp with hp' | hp'
            · rw [hp']
            · exact (List.sorted_cons.mp hsorted).1 p hp'
          · have hlast_cons : ((a :: q :: t').getLast (List.cons_ne_nil a (q :: t'))) = last := by
              rw [hlastdef, List.getLast_cons (List.cons_ne_nil q t')]
            have := sorted_moodGe_getLast (a :: q :: t') (List.cons_ne_nil a (q :: t')) hsorted p hp
            rw [hlast_cons] at this
            exact this

/-- Witness for `mood_best_worst_spec`: its third component applied to the
two-group example, yielding that at least two mood groups exist there. -/
theorem mood_best_worst_spec_witness :
    2 ≤ (prodByMood [(("Calm" : String), (8 : ℚ)), ("Stressed", 4)]).length := by
  have hex : moodBestWorst [(("Calm" : String), (8 : ℚ)), ("Stressed", 4)]
      = some ("Calm", "Stressed") := mood_best_worst_spec.1
  exact (mood_best_worst_spec.2.2 _ "Calm" "Stressed" hex).1

end FocusFlow
